import Mathlib

/-!
Verification of the knowledge-retrieval engine of this repository against its
natural-language specification.

The Python sources are shallowly embedded:
* Python `str` is modelled as `List Char` (`Str` below); `ord` is the Unicode
  code point (`Char.toNat`), matching CPython.
* Python `int` values that are provably non-negative on every reachable path
  (window start/end positions, sizes, counts) are modelled as `Nat`; note that
  for `e, ov : Nat` the Python expression `max(0, e - ov)` is exactly Nat
  subtraction `e - ov`.
* The `while` loop of `chunk_text` (src/rag_module/chunking.py) is modelled
  with explicit fuel: `none` means the loop performed more iterations than the
  fuel allows.  `chunkLoop_none_of_no_advance` below shows the fuel is not an
  artifact: for `chunk_size = overlap = 1` the loop never terminates.
* `numpy float32` arithmetic of the hashed fallback embedding
  (src/rag_module/embeddings.py) is modelled exactly over `ℝ`: bucket counts
  are small integers, exactly representable in float32, and the claims under
  study are stated "up to floating tolerance", which the exact model settles.
* Fallible Python code (functions that `raise`) returns `Except Str`.
-/

/-- Python `str`, as a list of characters. -/
abbrev Str := List Char

/-! ### Python string helpers (splitlines / strip / lower)

`str.strip` / `str.rstrip` with no argument strip whitespace: the full set
of code points for which CPython `str.isspace()` holds (ASCII whitespace,
the separator controls FS/GS/RS/US, NEL, NBSP, and the Unicode space
category: U+1680, U+2000–U+200A, U+2028/29, U+202F, U+205F, U+3000). -/

/-- The characters for which Python `str.isspace` holds (used by
`strip()` / `rstrip()`): CPython's ASCII whitespace table
(0x09–0x0D, 0x1C–0x1F, 0x20) plus the Unicode whitespace code points. -/
def isPySpace (c : Char) : Bool :=
  c == ' ' || c == '\t' || c == '\n' || c == '\x0b' || c == '\x0c' || c == '\x0d' ||
  c == '\x1c' || c == '\x1d' || c == '\x1e' || c == '\x1f' ||
  c == '\x85' || c == '\xa0' || c == '\u1680' ||
  (decide ('\u2000' ≤ c) && decide (c ≤ '\u200a')) ||
  c == '\u2028' || c == '\u2029' || c == '\u202f' || c == '\u205f' || c == '\u3000'

/-- Python `s.rstrip()`. -/
def pyRstrip (l : Str) : Str :=
  (l.reverse.dropWhile isPySpace).reverse

/-- Python `s.strip()`. -/
def pyStrip (l : Str) : Str :=
  (((l.dropWhile isPySpace).reverse).dropWhile isPySpace).reverse

/-- The line-boundary characters of Python `str.splitlines`
(`\n`, `\r`, `\v`, `\f`, FS, GS, RS, NEL U+0085, LINE SEPARATOR U+2028,
PARAGRAPH SEPARATOR U+2029; `\r\n` counts as one boundary). -/
def isLineBreak (c : Char) : Bool :=
  c == '\n' || c == '\x0b' || c == '\x0c' || c == '\x0d' ||
  c == '\x1c' || c == '\x1d' || c == '\x1e' ||
  c == '\x85' || c == '\u2028' || c == '\u2029'

/-- Worker for `pySplitlines`: `cur` is the current (reversed) line. -/
def splitlinesGo : Str → Str → List Str
  | cur, [] => if cur.isEmpty then [] else [cur.reverse]
  | cur, '\x0d' :: '\n' :: rest => cur.reverse :: splitlinesGo [] rest
  | cur, c :: rest =>
    if isLineBreak c then cur.reverse :: splitlinesGo [] rest
    else splitlinesGo (c :: cur) rest

/-- Python `s.splitlines()`. -/
def pySplitlines (l : Str) : List Str := splitlinesGo [] l

/-- `"\n".join(line.rstrip() for line in text.splitlines()).strip()` —
the cleaning step of `chunk_text` (src/rag_module/chunking.py line 16). -/
def cleanText (text : Str) : Str :=
  pyStrip (List.intercalate ['\n'] ((pySplitlines text).map pyRstrip))

/-- Python slice `l[s:e]` (for `0 ≤ s ≤ e`). -/
def pySlice (l : Str) (s e : Nat) : Str := (l.drop s).take (e - s)

/-! ### chunk_text (src/rag_module/chunking.py)

The `while start < len(cleaned)` loop, with explicit fuel.  Inside the loop
all quantities are non-negative, and `max(0, end - chunk_overlap)` is `Nat`
subtraction, so `start`, `size`, `ov` are `Nat`. -/

/-- One fuel unit per iteration of the `while` loop of `chunk_text`;
`none` means the fuel was exhausted before the loop finished. -/
def chunkLoop (cl : Str) (size ov : Nat) : Nat → Nat → List Str → Option (List Str)
  | 0, _, _ => none
  | fuel + 1, start, acc =>
    if start < cl.length then
      let e := min cl.length (start + size)
      let chunk := pyStrip (pySlice cl start e)
      let acc' := if chunk.isEmpty then acc else acc ++ [chunk]
      if e = cl.length then some acc'
      else chunkLoop cl size ov fuel (e - ov) acc'
    else some acc

/-- `chunk_text(text, chunk_size=size, chunk_overlap=ov)`.
When `ov < size` the loop advances by `size - ov ≥ 1` per iteration, so
`cl.length + 1` fuel always suffices (`chunkLoop_some`); outside that region
the Python loop can run forever (`chunkLoop_none_of_no_advance`), and this
total model returns `[]` where Python does not return at all. -/
def chunk_text (text : Str) (size ov : Nat) : List Str :=
  let cl := cleanText text
  if cl.isEmpty then []
  else (chunkLoop cl size ov (cl.length + 1) 0 []).getD []

/-! ### EmbeddingModel.embed_texts (src/rag_module/embeddings.py)

The hashed bag-of-words fallback: tokenize `t.lower()` with
`re.findall(r"[a-z0-9/_-]+", ...)`, accumulate `h = (h*131 + ord(ch)) &
0xFFFFFFFF` per token into bucket `h % dim`, then L2-normalize each row,
with zero norms replaced by 1 before dividing. -/

/-- Python `t.lower()` (ASCII case mapping, as used by the tokenizer whose
character class is ASCII-only). -/
def pyLower (l : Str) : Str := l.map Char.toLower

/-- Membership in the regex character class `[a-z0-9/_-]`. -/
def isTokChar (c : Char) : Bool :=
  (decide ('a' ≤ c) && decide (c ≤ 'z')) ||
  (decide ('0' ≤ c) && decide (c ≤ '9')) ||
  c == '_' || c == '-' || c == '/'

/-- Worker for `tokenize`: `cur` is the current (reversed) token run. -/
def tokenizeGo : Str → Str → List Str
  | cur, [] => if cur.isEmpty then [] else [cur.reverse]
  | cur, c :: rest =>
    if isTokChar c then tokenizeGo (c :: cur) rest
    else if cur.isEmpty then tokenizeGo [] rest
    else cur.reverse :: tokenizeGo [] rest

/-- `re.findall(r"[a-z0-9/_-]+", t.lower())`: the maximal runs of token
characters of the lowercased text. -/
def tokenize (t : Str) : List Str := tokenizeGo [] (pyLower t)

/-- The stable polynomial token hash
`h = (h * 131 + ord(ch)) & 0xFFFFFFFF`. -/
def tokHash (tok : Str) : Nat :=
  tok.foldl (fun h c => (h * 131 + c.toNat) % 4294967296) 0

/-- `mat[i, j] += 1.0` on a row: bump bucket `j`. -/
def bump (v : List Nat) (j : Nat) : List Nat := v.set j (v.getD j 0 + 1)

/-- The raw (unnormalized) bucket counts of one text: the inner token loop of
`embed_texts`.  The Python `if not t: continue` guard is subsumed: an empty
text has no tokens, so the row stays all zero either way. -/
def rawRow (dim : Nat) (t : Str) : List Nat :=
  (tokenize t).foldl (fun v tok => bump v (tokHash tok % dim)) (List.replicate dim 0)

/-- Lift a count row to the reals (float32 holds these small integers
exactly). -/
def castRow (v : List Nat) : List ℝ := v.map (fun a => (Nat.cast a : ℝ))

/-- Sum of squares: `‖v‖₂²`. -/
def sumSq (v : List ℝ) : ℝ := (v.map (fun x => x ^ 2)).sum

/-- `np.linalg.norm` of one row. -/
noncomputable def rowNorm (v : List ℝ) : ℝ := Real.sqrt (sumSq v)

/-- Row normalization with `norms[norms == 0.0] = 1.0`:
divide by the norm unless it is zero, in which case divide by 1. -/
noncomputable def normalizeRow (v : List ℝ) : List ℝ :=
  v.map (fun x => x / (if rowNorm v = 0 then 1 else rowNorm v))

/-- One text's embedded vector (row `i` of the returned matrix). -/
noncomputable def embedOne (dim : Nat) (t : Str) : List ℝ :=
  normalizeRow (castRow (rawRow dim t))

/-- `EmbeddingModel.embed_texts`: empty input yields the empty `(0, dim)`
matrix; otherwise the count matrix is built row by row, the per-row norms
are taken (`axis=1`), zero norms are replaced by 1, and the matrix is
divided row-wise. -/
noncomputable def embed_texts (dim : Nat) (texts : List Str) : List (List ℝ) :=
  if texts.isEmpty then []
  else
    let mats := texts.map (fun t => castRow (rawRow dim t))
    let norms := mats.map (fun row => if rowNorm row = 0 then 1 else rowNorm row)
    List.zipWith (fun row n => row.map (fun x => x / n)) mats norms

/-! ### Data model (src/rag_module/types.py)

Python metadata dicts here only ever hold string or int values
(`{"source": ..., "chunk_index": ...}`), modelled as an association list. -/

/-- A metadata value: Python `str` or `int`. -/
inductive MetaV where
  | str (s : Str)
  | nat (n : Nat)
deriving DecidableEq

/-- A metadata dict. -/
abbrev Meta := List (Str × MetaV)

/-- The `{"source": source, "chunk_index": i}` dict built by
`ingest_knowledge`. -/
def mkMeta (source : Str) (i : Nat) : Meta :=
  [("source".toList, MetaV.str source), ("chunk_index".toList, MetaV.nat i)]

/-- `metadata.get("source", "unknown")`, rendered as text the way the
formatters interpolate it. -/
def metaSourceStr (m : Meta) : Str :=
  match (m.find? (fun kv => kv.1 == "source".toList)).map (fun kv => kv.2) with
  | some (MetaV.str s) => s
  | some (MetaV.nat n) => (Nat.repr n).toList
  | none => "unknown".toList

/-- `RetrievedChunk` (src/rag_module/types.py). -/
structure RetrievedChunk where
  text : Str
  score : ℝ
  metadata : Meta

/-! ### FaissVectorStore.similarity_search (src/rag_module/vectorstores/faiss_store.py)

The store state is the in-memory document list plus the vectors held by the
`IndexFlatIP` index (`_index is None` iff no add ever happened, which
coincides with `docs = []` on every reachable state, so one emptiness test
models `self._index is None or not self._docs`).  `IndexFlatIP.search` is
exact brute-force inner product: it is modelled as ranking all stored
vectors by descending inner product with the query (ties broken
deterministically) and returning the first `k`; when fewer than `k` vectors
exist FAISS pads with index `-1`, which the Python loop skips — the model
simply returns the shorter list. -/

/-- The FAISS store state; `dim` is the `EmbeddingModel` dimension. -/
structure FaissStore where
  docs : List (Str × Meta)
  vecs : List (List ℝ)
  dim : Nat

/-- Inner product of two rows (trailing entries beyond the shorter row do
not arise: all stored rows share the model dimension). -/
def dot (a b : List ℝ) : ℝ := (List.zipWith (fun x y => x * y) a b).sum

/-- Descending-score order on (index, score) pairs used to model the FAISS
ranking. -/
def rDesc (a b : Nat × ℝ) : Prop := b.2 ≤ a.2

noncomputable instance : DecidableRel rDesc := fun a b => Real.decidableLE b.2 a.2

instance : IsTotal (Nat × ℝ) rDesc := ⟨fun a b => le_total b.2 a.2⟩

instance : IsTrans (Nat × ℝ) rDesc := ⟨fun _ _ _ h1 h2 => le_trans h2 h1⟩

/-- `FaissVectorStore.similarity_search(query, k=k)`. -/
noncomputable def similarity_search (s : FaissStore) (query : Str) (k : Nat) :
    List RetrievedChunk :=
  if s.docs.isEmpty then []
  else
    let q := (embed_texts s.dim [query]).headD []
    let scored := (List.range s.vecs.length).map (fun i => (i, dot q (s.vecs.getD i [])))
    let top := (List.insertionSort rDesc scored).take k
    top.filterMap (fun p => (s.docs.get? p.1).map (fun d => ⟨d.1, p.2, d.2⟩))

/-- Descending score order on retrieved chunks, as the spec states it. -/
def scoresDesc (l : List RetrievedChunk) : Prop :=
  l.Pairwise (fun a b => b.score ≤ a.score)

/-! ### ChromaVectorStore.similarity_search result building
(src/rag_module/vectorstores/chroma_store.py)

The top-`k` nearest-neighbour search itself is delegated to the external
`chromadb` collection; the repository code zips the returned documents,
metadatas and distances and converts each raw distance into
`score = 1/(1 + distance)`. -/

/-- `for doc, meta, dist in zip(docs, metas, dists): score = 1/(1+dist)`. -/
noncomputable def chroma_build : List Str → List Meta → List ℝ → List RetrievedChunk
  | d :: ds, m :: ms, x :: xs => ⟨d, 1 / (1 + x), m⟩ :: chroma_build ds ms xs
  | _, _, _ => []

/-! ### ChromaVectorStore state, add_texts, ingest_knowledge, ensure_ingested
(src/rag_module/vectorstores/chroma_store.py, src/rag_module/ingest.py,
src/backend/rag.py)

The persistent collection is modelled as the list of `collection.add`
batches it received; each batch entry carries (document, metadata,
embedding).  The random `uuid4` ids are not modelled: they are only used as
unique storage keys and are observable through no operation under study. -/

/-- One stored entry: document text, metadata, embedding. -/
abbrev ChromaEntry := Str × Meta × List ℝ

/-- The Chroma collection state, as the list of received `add` batches. -/
structure ChromaStore where
  batches : List (List ChromaEntry)

/-- All stored entries, in insertion order. -/
def chromaEntries (s : ChromaStore) : List ChromaEntry := s.batches.flatten

/-- `store._collection.count()`. -/
def chromaCount (s : ChromaStore) : Nat := (chromaEntries s).length

/-- `zip` of three equal-length lists, as `collection.add(ids=..,
documents=texts, metadatas=metadatas, embeddings=embeddings)` stores them. -/
def zip3 : List Str → List Meta → List (List ℝ) → List ChromaEntry
  | a :: as_, b :: bs, c :: cs => (a, b, c) :: zip3 as_ bs cs
  | _, _, _ => []

/-- `ChromaVectorStore.add_texts`: empty input returns immediately; a
metadata/text length mismatch raises `ValueError`; otherwise embeddings are
computed and one batch is handed to `collection.add`. -/
noncomputable def chroma_add_texts (dim : Nat) (s : ChromaStore) (texts : List Str)
    (metadatasOpt : Option (List Meta)) : Except Str ChromaStore :=
  if texts.isEmpty then Except.ok s
  else
    let metadatas := metadatasOpt.getD (texts.map (fun _ => ([] : Meta)))
    if metadatas.length ≠ texts.length then
      Except.error "metadatas length must match texts length".toList
    else
      Except.ok ⟨s.batches ++ [zip3 texts metadatas (embed_texts dim texts)]⟩

/-- `ingest_knowledge(store, knowledge_texts=.., sources=.., chunk_size=..,
chunk_overlap=..)` (src/rag_module/ingest.py): default the sources, check
lengths, accumulate the tagged chunks of every document, then call
`store.add_texts` once with the whole batch and return the chunk count. -/
noncomputable def ingest_knowledge (dim : Nat) (store : ChromaStore)
    (knowledge_texts : List Str) (sourcesOpt : Option (List Str))
    (size ov : Nat) : Except Str (ChromaStore × Nat) :=
  let sources := sourcesOpt.getD (knowledge_texts.map (fun _ => "knowledge".toList))
  if sources.length ≠ knowledge_texts.length then
    Except.error "sources length must match knowledge_texts length".toList
  else
    let chunks : List (Str × Meta) :=
      (knowledge_texts.zip sources).foldl
        (fun acc ts =>
          acc ++ (List.enum (chunk_text ts.1 size ov)).map
            (fun ic => (ic.2, mkMeta ts.2 ic.1)))
        []
    match chroma_add_texts dim store (chunks.map Prod.fst)
        (some (chunks.map Prod.snd)) with
    | Except.ok s2 => Except.ok (s2, chunks.length)
    | Except.error e => Except.error e

/-- The batch a single `collection.add` receives for a tagged chunk list. -/
noncomputable def ingestBatch (dim : Nat) (tagged : List (Str × Meta)) : List ChromaEntry :=
  zip3 (tagged.map Prod.fst) (tagged.map Prod.snd)
    (embed_texts dim (tagged.map Prod.fst))

/-- The accumulated tagged chunks of a document list: for each
`(text, source)` pair, the chunks of `text`, each tagged
`{source, chunk_index}`.  This is the specification-side characterization
the fold inside `ingest_knowledge` is proved equal to. -/
def taggedChunks (texts sources : List Str) (size ov : Nat) : List (Str × Meta) :=
  ((texts.zip sources).map
    (fun ts => (List.enum (chunk_text ts.1 size ov)).map
      (fun ic => (ic.2, mkMeta ts.2 ic.1)))).flatten

/-- `ensure_ingested(store)` (src/backend/rag.py).  The filesystem
interaction is made explicit: `knowledgeDir` is `none` when
`KNOWLEDGE_DIR` does not exist, and otherwise holds the sorted
`(filename, extracted text)` pairs of the knowledge files (text extraction
itself is an external concern).  The `try/except` fallbacks around
`collection.count()` are not modelled (counting the modelled state cannot
fail). -/
noncomputable def ensure_ingested (dim : Nat) (knowledgeDir : Option (List (Str × Str)))
    (store : ChromaStore) : Except Str ChromaStore :=
  if 0 < chromaCount store then Except.ok store
  else
    match knowledgeDir with
    | none => Except.error "Knowledge directory not found".toList
    | some files =>
      if files.isEmpty then Except.error "No knowledge files found".toList
      else
        let good := files.filter (fun fc => !(pyStrip fc.2).isEmpty)
        let texts := good.map (fun fc => fc.2)
        let sources := good.map (fun fc => fc.1)
        if texts.isEmpty then
          Except.error "No content extracted from knowledge files".toList
        else
          match ingest_knowledge dim store texts (some sources) 1200 200 with
          | Except.error e => Except.error e
          | Except.ok (s2, _) =>
            if chromaCount s2 ≤ 0 then
              Except.error "RAG retrieval is empty after ingestion".toList
            else Except.ok s2

/-! ### Context formatters (src/rag_module/query.py and src/backend/rag.py) -/

/-- Decimal digits of a natural number. -/
def natStr (n : Nat) : Str := (Nat.repr n).toList

/-- Zero-pad to four digits (for the fractional part of a score). -/
def padLeft4 (s : Str) : Str := List.replicate (4 - s.length) '0' ++ s

/-- Python `f"{x:.4f}"` on the exact real model: four fractional digits.
CPython rounds the underlying double with round-half-even; on the exact
reals this is modelled as round-half-up, which agrees except on exact
half-way points. -/
noncomputable def fmt4 (x : ℝ) : Str :=
  let n : ℤ := ⌊x * 10000 + 1 / 2⌋
  (if n < 0 then "-".toList else []) ++
    natStr (n.natAbs / 10000) ++ ".".toList ++ padLeft4 (natStr (n.natAbs % 10000))

/-- `format_retrieved_context` (src/rag_module/query.py): empty input
returns the empty string; otherwise numbered `[CONTEXT i | source=.. |
score=..]` blocks joined by a separator. -/
noncomputable def format_retrieved_context (chunks : List RetrievedChunk) : Str :=
  if chunks.isEmpty then []
  else
    List.intercalate "\n\n---\n\n".toList
      ((List.enumFrom 1 chunks).map
        (fun ic =>
          "[CONTEXT ".toList ++ natStr ic.1 ++ " | source=".toList ++
            metaSourceStr ic.2.metadata ++ " | score=".toList ++
            fmt4 ic.2.score ++ "]\n".toList ++ ic.2.text))

/-- A line of 80 `=` characters. -/
def eq80 : Str := List.replicate 80 '='

/-- The three-tier relevance banding of the backend formatter. -/
noncomputable def relevanceLabel (score : ℝ) : Str :=
  if (0.7 : ℝ) < score then "Highly Relevant".toList
  else if (0.5 : ℝ) < score then "Relevant".toList
  else "Low Relevance".toList

/-- `_format_retrieved_context` (src/backend/rag.py): empty input returns
the sentinel `"No relevant knowledge retrieved."`; otherwise delimited
`CONTEXT` blocks with relevance banding and a closing marker. -/
noncomputable def backend_format_retrieved_context (chunks : List RetrievedChunk) : Str :=
  if chunks.isEmpty then "No relevant knowledge retrieved.".toList
  else
    let blocks := (List.enumFrom 1 chunks).map
      (fun ic =>
        "\n".toList ++ eq80 ++ "\nCONTEXT ".toList ++ natStr ic.1 ++
          " | Source: ".toList ++ metaSourceStr ic.2.metadata ++
          " | Relevance: ".toList ++ relevanceLabel ic.2.score ++
          " (Score: ".toList ++ fmt4 ic.2.score ++ ")\n".toList ++ eq80 ++
          "\n".toList ++ ic.2.text)
    blocks.flatten ++ "\n\n".toList ++ eq80 ++
      "\nEND OF RETRIEVED KNOWLEDGE BASE\n".toList ++ eq80

/-! ### Concrete states used by witnesses and counterexamples -/

/-- A one-document FAISS store (dimension 3). -/
noncomputable def faissStoreOne : FaissStore :=
  { docs := [("hello".toList, mkMeta "kb.txt".toList 0)]
    vecs := [[1]]
    dim := 3 }

/-- A Chroma collection already holding one chunk. -/
noncomputable def chromaStoreOne : ChromaStore :=
  ⟨[[("some stored chunk".toList, mkMeta "kb.txt".toList 0, [1])]]⟩

/-! ### Basic lemmas about strip and slice -/

theorem mem_dropWhile_of_mem {c : Char} {p : Char → Bool} :
    ∀ {l : Str}, c ∈ l → p c = false → c ∈ l.dropWhile p
  | a :: t, hc, hp => by
    by_cases ha : p a = true
    · simp only [List.dropWhile_cons, ha, if_true]
      rcases List.mem_cons.mp hc with rfl | h
      · exact absurd ha (by simp [hp])
      · exact mem_dropWhile_of_mem h hp
    · simp only [List.dropWhile_cons, ha, if_false]
      exact hc

theorem mem_pyStrip {c : Char} {l : Str} (hc : c ∈ l) (hp : isPySpace c = false) :
    c ∈ pyStrip l := by
  unfold pyStrip
  have h1 : c ∈ l.dropWhile isPySpace := mem_dropWhile_of_mem hc hp
  have h2 : c ∈ (l.dropWhile isPySpace).reverse := List.mem_reverse.mpr h1
  have h3 : c ∈ ((l.dropWhile isPySpace).reverse).dropWhile isPySpace :=
    mem_dropWhile_of_mem h2 hp
  exact List.mem_reverse.mpr h3

theorem getD_mem_pySlice {l : Str} {s e p : Nat} (d : Char)
    (h1 : s ≤ p) (h2 : p < e) (h3 : p < l.length) :
    l.getD p d ∈ pySlice l s e := by
  have hd : p - s < (l.drop s).length := by
    rw [List.length_drop]
    omega
  have hts : p - s < e - s := by omega
  have hget : (pySlice l s e)[p - s]? = l[p]? := by
    unfold pySlice
    rw [List.getElem?_take_of_lt hts, List.getElem?_drop]
    congr 1
    omega
  have hgp : l[p]? = some (l.getD p d) := by
    rw [List.getD_eq_getElem l d h3]
    exact List.getElem?_eq_getElem h3
  exact List.getElem?_mem (by rw [hget, hgp])

/-! ### The chunk_text loop: one-step equation, coverage, non-termination -/

theorem chunkLoop_succ (cl : Str) (size ov fuel start : Nat) (acc : List Str) :
    chunkLoop cl size ov (fuel + 1) start acc =
      if start < cl.length then
        if min cl.length (start + size) = cl.length then
          some (if (pyStrip (pySlice cl start (min cl.length (start + size)))).isEmpty
            then acc
            else acc ++ [pyStrip (pySlice cl start (min cl.length (start + size)))])
        else
          chunkLoop cl size ov fuel (min cl.length (start + size) - ov)
            (if (pyStrip (pySlice cl start (min cl.length (start + size)))).isEmpty
              then acc
              else acc ++ [pyStrip (pySlice cl start (min cl.length (start + size)))])
      else some acc := rfl

/-- Coverage invariant of the `while` loop of `chunk_text`: with positive
advance (`ov < size`), enough fuel makes the loop return, appending chunks
that contain every non-whitespace character from position `start` on.  The
whitespace restriction is forced by the `.strip()` applied to each window. -/
theorem chunkLoop_cover (cl : Str) (size ov : Nat) (hov : ov < size) :
    ∀ fuel start acc, cl.length - start < fuel →
      ∃ suffix, chunkLoop cl size ov fuel start acc = some (acc ++ suffix) ∧
        ∀ p, start ≤ p → p < cl.length → isPySpace (cl.getD p ' ') = false →
          ∃ ch ∈ suffix, cl.getD p ' ' ∈ ch := by
  intro fuel
  induction fuel with
  | zero => intro start acc h; omega
  | succ fuel ih =>
    intro start acc h
    by_cases hs : start < cl.length
    · rw [chunkLoop_succ, if_pos hs]
      by_cases hend : min cl.length (start + size) = cl.length
      · rw [if_pos hend]
        refine ⟨if (pyStrip (pySlice cl start (min cl.length (start + size)))).isEmpty
            then [] else [pyStrip (pySlice cl start (min cl.length (start + size)))],
          ?_, ?_⟩
        · by_cases hemp : (pyStrip (pySlice cl start (min cl.length (start + size)))).isEmpty
          · rw [if_pos hemp, if_pos hemp, List.append_nil]
          · rw [if_neg hemp, if_neg hemp]
        · intro p hp1 hp2 hp3
          have hmem : cl.getD p ' ' ∈ pySlice cl start (min cl.length (start + size)) :=
            getD_mem_pySlice ' ' hp1 (by omega) hp2
          have hmem2 : cl.getD p ' ' ∈ pyStrip (pySlice cl start (min cl.length (start + size))) :=
            mem_pyStrip hmem hp3
          have hemp : (pyStrip (pySlice cl start (min cl.length (start + size)))).isEmpty = false := by
            rcases hx : pyStrip (pySlice cl start (min cl.length (start + size))) with _ | _
            · rw [hx] at hmem2; exact absurd hmem2 (List.not_mem_nil _)
            · rfl
          rw [hemp]
          exact ⟨_, List.mem_singleton_self _, hmem2⟩
      · rw [if_neg hend]
        have hmin : min cl.length (start + size) = start + size := by omega
        have hfuel : cl.length - (min cl.length (start + size) - ov) < fuel := by omega
        obtain ⟨suf2, heq, hcov2⟩ := ih (min cl.length (start + size) - ov)
          (if (pyStrip (pySlice cl start (min cl.length (start + size)))).isEmpty
            then acc
            else acc ++ [pyStrip (pySlice cl start (min cl.length (start + size)))]) hfuel
        refine ⟨(if (pyStrip (pySlice cl start (min cl.length (start + size)))).isEmpty
            then [] else [pyStrip (pySlice cl start (min cl.length (start + size)))]) ++ suf2,
          ?_, ?_⟩
        · rw [heq]
          by_cases hemp : (pyStrip (pySlice cl start (min cl.length (start + size)))).isEmpty
          · rw [if_pos hemp, if_pos hemp]
            simp
          · rw [if_neg hemp, if_neg hemp]
            simp
        · intro p hp1 hp2 hp3
          by_cases hpe : p < min cl.length (start + size)
          · have hmem : cl.getD p ' ' ∈ pySlice cl start (min cl.length (start + size)) :=
              getD_mem_pySlice ' ' hp1 hpe hp2
            have hmem2 : cl.getD p ' ' ∈ pyStrip (pySlice cl start (min cl.length (start + size))) :=
              mem_pyStrip hmem hp3
            have hemp : (pyStrip (pySlice cl start (min cl.length (start + size)))).isEmpty = false := by
              rcases hx : pyStrip (pySlice cl start (min cl.length (start + size))) with _ | _
              · rw [hx] at hmem2; exact absurd hmem2 (List.not_mem_nil _)
              · rfl
            rw [hemp]
            exact ⟨_, List.mem_append_left _ (List.mem_singleton_self _), hmem2⟩
          · obtain ⟨ch, hch, hcm⟩ := hcov2 p (by omega) hp2 hp3
            exact ⟨ch, List.mem_append_right _ hch, hcm⟩
    · exact ⟨[], by rw [chunkLoop_succ, if_neg hs, List.append_nil], fun p hp1 hp2 _ => by omega⟩

/-- C2 (amended): with `chunk_size > overlap ≥ 0`, every non-whitespace
character of the cleaned input appears in at least one returned chunk.
(Whitespace at stripped window boundaries may be dropped: see
`chunk_text_drops_boundary_space`.) -/
theorem chunk_text_covers (text : Str) (size ov : Nat) (c : Char)
    (hov : ov < size) (hc : c ∈ cleanText text) (hsp : isPySpace c = false) :
    ∃ ch ∈ chunk_text text size ov, c ∈ ch := by
  obtain ⟨p, hp, hcp⟩ := List.mem_iff_getElem.mp hc
  have hne : (cleanText text).isEmpty = false := by
    rcases hx : cleanText text with _ | _
    · rw [hx] at hc; exact absurd hc (List.not_mem_nil _)
    · rfl
  obtain ⟨suffix, heq, hcov⟩ := chunkLoop_cover (cleanText text) size ov hov
    ((cleanText text).length + 1) 0 [] (by omega)
  have hres : chunk_text text size ov = suffix := by
    unfold chunk_text
    simp only [hne, Bool.false_eq_true, if_false, heq, List.nil_append, Option.getD_some]
  have hgd : (cleanText text).getD p ' ' = c := by
    rw [List.getD_eq_getElem _ ' ' hp, hcp]
  rw [hres]
  have := hcov p (Nat.zero_le p) hp (by rw [hgd]; exact hsp)
  rw [hgd] at this
  exact this

/-- C2 (counterexample to the claim as stated): for input `"a b"` with
`chunk_size = 2 > overlap = 0`, the cleaned input contains the space
character, yet no returned chunk contains it — each window is `.strip()`ped,
so boundary whitespace is dropped. -/
theorem chunk_text_drops_boundary_space :
    (' ' ∈ cleanText "a b".toList) ∧
      ∀ ch ∈ chunk_text "a b".toList 2 0, ' ' ∉ ch := by decide

/-- Witness for `chunk_text_covers` at `text = "ab"`, `size = 2`, `ov = 0`,
`c = 'a'`. -/
theorem chunk_text_covers_witness :
    (0 < 2) ∧ ('a' ∈ cleanText "ab".toList) ∧ (isPySpace 'a' = false) ∧
      ∃ ch ∈ chunk_text "ab".toList 2 0, 'a' ∈ ch :=
  ⟨by decide, by decide, by decide,
    chunk_text_covers "ab".toList 2 0 'a' (by decide) (by decide) (by decide)⟩

/-- C3: the claim is false of the code — with `chunk_size = 1` and
`chunk_overlap = 1` on input `"abc"`, the loop recomputes
`start = max(0, 1 - 1) = 0` forever: no fuel bound suffices, i.e. the
Python `while` loop never terminates (it appends `"a"` on every
iteration).  The step does *not* guarantee an advance of at least 1. -/
theorem chunkLoop_none_of_no_advance :
    ∀ (fuel : Nat) (acc : List Str),
      chunkLoop "abc".toList 1 1 fuel 0 acc = none := by
  intro fuel
  induction fuel with
  | zero => intro acc; rfl
  | succ fuel ih =>
    intro acc
    rw [chunkLoop_succ]
    norm_num
    exact ih (acc ++ [['a']])

/-! ### Embedding lemmas (C4, C9) -/

theorem zipWith_map_same {α β γ δ : Type} (f : α → β) (g : α → γ) (k : β → γ → δ) :
    ∀ l : List α, List.zipWith k (l.map f) (l.map g) = l.map (fun x => k (f x) (g x))
  | [] => rfl
  | a :: t => by
    simp only [List.map_cons, List.zipWith_cons_cons, zipWith_map_same f g k t]

/-- `embed_texts` is row-wise: row `i` of the output is a function of text
`i` alone. -/
theorem embed_texts_eq_map (dim : Nat) (texts : List Str) :
    embed_texts dim texts = texts.map (embedOne dim) := by
  cases texts with
  | nil => rfl
  | cons a t =>
    unfold embed_texts
    simp only [List.isEmpty_cons, Bool.false_eq_true, if_false, List.map_map]
    rw [zipWith_map_same]
    rfl

theorem length_bump (v : List Nat) (j : Nat) : (bump v j).length = v.length :=
  List.length_set v j _

theorem sum_bump (v : List Nat) (j : Nat) (h : j < v.length) :
    (bump v j).sum = v.sum + 1 := by
  induction v generalizing j with
  | nil => exact absurd h (by simp)
  | cons a t ih =>
    cases j with
    | zero =>
      show ((a :: t).set 0 ((a :: t).getD 0 0 + 1)).sum = (a :: t).sum + 1
      simp only [List.getD_cons_zero, List.set_cons_zero, List.sum_cons]
      omega
    | succ j =>
      have hj : j < t.length := by simpa using h
      show ((a :: t).set (j + 1) ((a :: t).getD (j + 1) 0 + 1)).sum = (a :: t).sum + 1
      simp only [List.getD_cons_succ, List.set_cons_succ, List.sum_cons]
      have hb : (t.set j (t.getD j 0 + 1)).sum = t.sum + 1 := ih j hj
      omega

theorem rawRow_fold_aux (dim : Nat) (hdim : 0 < dim) :
    ∀ (toks : List Str) (v : List Nat), v.length = dim →
      (toks.foldl (fun w tok => bump w (tokHash tok % dim)) v).length = dim ∧
      (toks.foldl (fun w tok => bump w (tokHash tok % dim)) v).sum = v.sum + toks.length := by
  intro toks
  induction toks with
  | nil => intro v hv; exact ⟨hv, by simp⟩
  | cons tk toks ih =>
    intro v hv
    have hlt : tokHash tk % dim < v.length := by
      rw [hv]; exact Nat.mod_lt _ hdim
    have hb : (bump v (tokHash tk % dim)).length = dim := by
      rw [length_bump, hv]
    obtain ⟨hl, hs⟩ := ih (bump v (tokHash tk % dim)) hb
    refine ⟨hl, ?_⟩
    simp only [List.foldl_cons] at *
    rw [hs, sum_bump v _ hlt, List.length_cons]
    omega

/-- Each token bumps exactly one bucket: the total count is the token count. -/
theorem rawRow_sum (dim : Nat) (t : Str) (hdim : 0 < dim) :
    (rawRow dim t).sum = (tokenize t).length := by
  have h := (rawRow_fold_aux dim hdim (tokenize t) (List.replicate dim 0) (by simp)).2
  rw [rawRow, h]
  simp

theorem castRow_cons (a : Nat) (v : List Nat) :
    castRow (a :: v) = (a : ℝ) :: castRow v := rfl

theorem sumSq_cons (x : ℝ) (v : List ℝ) : sumSq (x :: v) = x ^ 2 + sumSq v := by
  simp [sumSq]

theorem sumSq_nonneg (v : List ℝ) : 0 ≤ sumSq v := by
  refine List.sum_nonneg ?_
  intro x hx
  obtain ⟨y, _, rfl⟩ := List.mem_map.mp hx
  positivity

theorem sumSq_castRow_pos (v : List Nat) (h : 0 < v.sum) : 0 < sumSq (castRow v) := by
  induction v with
  | nil => simp at h
  | cons a t ih =>
    rw [castRow_cons, sumSq_cons]
    rcases Nat.eq_zero_or_pos a with rfl | ha
    · have ht : 0 < t.sum := by simpa using h
      have := ih ht
      simpa using this
    · have h1 : (0 : ℝ) < (a : ℝ) ^ 2 := by positivity
      have h2 : 0 ≤ sumSq (castRow t) := sumSq_nonneg (castRow t)
      linarith

theorem sumSq_map_div (v : List ℝ) (c : ℝ) :
    sumSq (v.map (fun x => x / c)) = sumSq v / c ^ 2 := by
  induction v with
  | nil => simp [sumSq]
  | cons a t ih => rw [List.map_cons, sumSq_cons, sumSq_cons, ih, div_pow, add_div]

/-- A row with at least one token embeds to a unit vector. -/
theorem embedOne_unit_norm (dim : Nat) (t : Str) (hdim : 0 < dim)
    (htok : tokenize t ≠ []) : sumSq (embedOne dim t) = 1 := by
  have hsum : 0 < (rawRow dim t).sum := by
    rw [rawRow_sum dim t hdim]
    cases hx : tokenize t with
    | nil => exact absurd hx htok
    | cons _ _ => simp
  have hS : 0 < sumSq (castRow (rawRow dim t)) := sumSq_castRow_pos _ hsum
  have hn : rowNorm (castRow (rawRow dim t)) ≠ 0 := by
    rw [rowNorm]
    exact (Real.sqrt_pos.mpr hS).ne'
  rw [embedOne, normalizeRow, if_neg hn, sumSq_map_div, rowNorm, Real.sq_sqrt hS.le,
    div_self hS.ne']

theorem castRow_replicate (n : Nat) :
    castRow (List.replicate n 0) = List.replicate n (0 : ℝ) := by
  rw [castRow, List.map_replicate, Nat.cast_zero]

theorem sumSq_replicate_zero (n : Nat) : sumSq (List.replicate n (0 : ℝ)) = 0 := by
  simp [sumSq]

theorem rowNorm_replicate_zero (n : Nat) : rowNorm (List.replicate n (0 : ℝ)) = 0 := by
  rw [rowNorm, sumSq_replicate_zero, Real.sqrt_zero]

/-- The empty text has no tokens, so its raw row is all zero, its norm is 0,
and the `norms[norms == 0.0] = 1.0` guard makes the output the zero vector. -/
theorem embedOne_nil (dim : Nat) : embedOne dim [] = List.replicate dim 0 := by
  rw [embedOne, rawRow, tokenize]
  show normalizeRow (castRow (List.replicate dim 0)) = List.replicate dim 0
  rw [castRow_replicate, normalizeRow, if_pos (rowNorm_replicate_zero dim)]
  simp

/-- C4 (amended): a returned vector is L2-normalized (`‖v‖₂² = 1` exactly,
in the exact-real model) whenever its text has at least one token; texts
with no tokens yield the zero vector instead (see
`embed_texts_zero_vector`). -/
theorem embed_texts_unit_norm (dim : Nat) (texts : List Str) (i : Nat)
    (hdim : 0 < dim) (hi : i < texts.length)
    (htok : tokenize (texts.getD i []) ≠ []) :
    sumSq ((embed_texts dim texts).getD i []) = 1 := by
  have hlen : i < (embed_texts dim texts).length := by
    rw [embed_texts_eq_map, List.length_map]
    exact hi
  rw [List.getD_eq_getElem _ _ hlen]
  have : (embed_texts dim texts)[i] = embedOne dim texts[i] := by
    simp [embed_texts_eq_map]
  rw [this]
  apply embedOne_unit_norm dim _ hdim
  rwa [List.getD_eq_getElem _ _ hi] at htok

/-- Witness for `embed_texts_unit_norm` at `dim = 384`, `texts = ["abc"]`,
`i = 0`. -/
theorem embed_texts_unit_norm_witness :
    (0 < 384) ∧ (0 < 1) ∧ (tokenize (["abc".toList].getD 0 []) ≠ []) ∧
      sumSq ((embed_texts 384 ["abc".toList]).getD 0 []) = 1 :=
  ⟨by decide, by decide, by decide,
    embed_texts_unit_norm 384 ["abc".toList] 0 (by decide) (by decide) (by decide)⟩

/-- C4 (counterexample to the claim as stated): the empty string yields the
all-zero vector, whose squared norm is 0, not 1 — `norms[norms == 0.0] =
1.0` avoids division by zero but does not renormalize the row. -/
theorem embed_texts_zero_vector :
    embed_texts 384 [[]] = [List.replicate 384 (0 : ℝ)] ∧
      sumSq (List.replicate 384 (0 : ℝ)) = 0 ∧ (0 : ℝ) ≠ 1 := by
  refine ⟨?_, sumSq_replicate_zero 384, by norm_num⟩
  rw [embed_texts_eq_map, List.map_cons, List.map_nil, embedOne_nil]

/-- C9: the hashed fallback provider, as embedded, is a pure mathematical
function of the text list — two calls on identical input are definitionally
equal, and this theorem sharpens that: row `i` of the output depends only
on text `i` (no batch coupling, no process state; the source uses only
`ord`, integer arithmetic and per-row normalization). -/
theorem embed_texts_deterministic (dim : Nat) (texts : List Str) :
    embed_texts dim texts = texts.map (embedOne dim) :=
  embed_texts_eq_map dim texts

/-! ### Similarity search lemmas (C5, C6) -/

theorem dot_replicate_zero : ∀ (n : Nat) (v : List ℝ), dot (List.replicate n 0) v = 0
  | 0, v => by simp [dot]
  | _ + 1, [] => by simp [dot]
  | n + 1, y :: v => by
    rw [List.replicate_succ]
    show (List.zipWith (fun x y => x * y) ((0 : ℝ) :: List.replicate n 0) (y :: v)).sum = 0
    rw [List.zipWith_cons_cons, List.sum_cons, zero_mul, zero_add]
    exact dot_replicate_zero n v

theorem pairwise_filterMap_of {α β : Type} (f : α → Option β) {R : α → α → Prop}
    {S : β → β → Prop}
    (H : ∀ a b x y, R a b → f a = some x → f b = some y → S x y) :
    ∀ l : List α, l.Pairwise R → (l.filterMap f).Pairwise S := by
  intro l
  induction l with
  | nil => intro h; simp
  | cons a t ih =>
    intro hp
    rw [List.pairwise_cons] at hp
    cases hfa : f a with
    | none => simp only [List.filterMap_cons, hfa]; exact ih hp.2
    | some x =>
      simp only [List.filterMap_cons, hfa]
      rw [List.pairwise_cons]
      refine ⟨?_, ih hp.2⟩
      intro y hy
      obtain ⟨b, hb, hfb⟩ := List.mem_filterMap.mp hy
      exact H a b x y (hp.1 b hb) hfa hfb

theorem length_filterMap_of_some {α β : Type} (f : α → Option β) :
    ∀ l : List α, (∀ x ∈ l, (f x).isSome) → (l.filterMap f).length = l.length := by
  intro l
  induction l with
  | nil => intro h; rfl
  | cons a t ih =>
    intro h
    obtain ⟨y, hy⟩ := Option.isSome_iff_exists.mp (h a (List.mem_cons_self a t))
    simp only [List.filterMap_cons, hy, List.length_cons]
    rw [ih (fun x hx => h x (List.mem_cons_of_mem a hx))]

theorem chroma_build_mem (ds : List Str) :
    ∀ (ms : List Meta) (xs : List ℝ) (c : RetrievedChunk),
      c ∈ chroma_build ds ms xs → ∃ x ∈ xs, c.score = 1 / (1 + x) := by
  induction ds with
  | nil =>
    intro ms xs c hc
    cases ms <;> cases xs <;> simp [chroma_build] at hc
  | cons d ds ih =>
    intro ms xs c hc
    cases ms with
    | nil => simp [chroma_build] at hc
    | cons m ms =>
      cases xs with
      | nil => simp [chroma_build] at hc
      | cons x xs =>
        rw [chroma_build, List.mem_cons] at hc
        rcases hc with rfl | hc
        · exact ⟨x, List.mem_cons_self x xs, rfl⟩
        · obtain ⟨y, hy, he⟩ := ih ms xs c hc
          exact ⟨y, List.mem_cons_of_mem x hy, he⟩

theorem chroma_build_sorted (ds : List Str) :
    ∀ (ms : List Meta) (xs : List ℝ), xs.Pairwise (· ≤ ·) → (∀ x ∈ xs, 0 ≤ x) →
      scoresDesc (chroma_build ds ms xs) ∧
        (chroma_build ds ms xs).length ≤ xs.length := by
  induction ds with
  | nil =>
    intro ms xs _ _
    cases ms <;> cases xs <;> simp [chroma_build, scoresDesc]
  | cons d ds ih =>
    intro ms xs hp hn
    cases ms with
    | nil => simp [chroma_build, scoresDesc]
    | cons m ms =>
      cases xs with
      | nil => simp [chroma_build, scoresDesc]
      | cons x xs =>
        rw [List.pairwise_cons] at hp
        obtain ⟨ihs, ihl⟩ := ih ms xs hp.2 (fun y hy => hn y (List.mem_cons_of_mem x hy))
        have hx0 : (0 : ℝ) ≤ x := hn x (List.mem_cons_self x xs)
        constructor
        · rw [chroma_build, scoresDesc, List.pairwise_cons]
          refine ⟨?_, ihs⟩
          intro c hc
          obtain ⟨y, hy, he⟩ := chroma_build_mem ds ms xs c hc
          rw [he]
          show (1 : ℝ) / (1 + y) ≤ 1 / (1 + x)
          have h1 : (0 : ℝ) < 1 + x := by linarith
          have h2 : (1 : ℝ) + x ≤ 1 + y := by
            have := hp.1 y hy
            linarith
          exact one_div_le_one_div_of_le h1 h2
        · rw [chroma_build, List.length_cons, List.length_cons]
          exact Nat.succ_le_succ ihl

/-- C6: for every store state, query and `k ≥ 1`, `similarity_search`
returns at most `k` results, in non-increasing score order, and returns the
empty list (not an error) on an empty index; on the Chroma backend the
repository code converts backend distances `dists` (ascending, non-negative,
at most `k` of them — the external collection's contract) into scores
`1/(1+d)`, which preserves "at most `k`" and reverses the order into
non-increasing scores. -/
theorem similarity_search_contract (s : FaissStore) (q : Str) (k : Nat)
    (docs : List Str) (metas : List Meta) (dists : List ℝ)
    (hk : 1 ≤ k) (hd : dists.Pairwise (· ≤ ·)) (hn : ∀ x ∈ dists, 0 ≤ x)
    (hl : dists.length ≤ k) :
    ((similarity_search s q k).length ≤ k ∧
      scoresDesc (similarity_search s q k) ∧
      (s.docs = [] → similarity_search s q k = [])) ∧
    (scoresDesc (chroma_build docs metas dists) ∧
      (chroma_build docs metas dists).length ≤ k) := by
  constructor
  · by_cases hde : s.docs.isEmpty
    · have hres0 : similarity_search s q k = [] := by
        unfold similarity_search
        simp only [hde, if_true]
      rw [hres0]
      exact ⟨Nat.zero_le k, List.Pairwise.nil, fun _ => rfl⟩
    · have hres : similarity_search s q k =
          ((List.insertionSort rDesc
              ((List.range s.vecs.length).map
                (fun i => (i, dot ((embed_texts s.dim [q]).headD []) (s.vecs.getD i []))))).take k).filterMap
            (fun p => (s.docs.get? p.1).map (fun d => ⟨d.1, p.2, d.2⟩)) := by
        unfold similarity_search
        simp only [hde, Bool.false_eq_true, if_false]
      refine ⟨?_, ?_, ?_⟩
      · rw [hres]
        calc (((List.insertionSort rDesc _).take k).filterMap _).length
            ≤ ((List.insertionSort rDesc _).take k).length := List.length_filterMap_le _ _
          _ ≤ k := by rw [List.length_take]; exact min_le_left _ _
      · rw [hres]
        have hH : ∀ (a b : Nat × ℝ) (x y : RetrievedChunk), rDesc a b →
            (s.docs.get? a.1).map (fun d => (⟨d.1, a.2, d.2⟩ : RetrievedChunk)) = some x →
            (s.docs.get? b.1).map (fun d => (⟨d.1, b.2, d.2⟩ : RetrievedChunk)) = some y →
            y.score ≤ x.score := by
          intro a b x y hr hfa hfb
          cases hga : s.docs.get? a.1 with
          | none => rw [hga] at hfa; simp at hfa
          | some da =>
            cases hgb : s.docs.get? b.1 with
            | none => rw [hgb] at hfb; simp at hfb
            | some db =>
              rw [hga] at hfa
              rw [hgb] at hfb
              simp only [Option.map_some', Option.some_inj] at hfa hfb
              rw [← hfa, ← hfb]
              exact hr
        exact pairwise_filterMap_of _ hH _
          ((List.sorted_insertionSort rDesc _).sublist (List.take_sublist k _))
      · intro hnil
        rw [hnil] at hde
        simp at hde
  · exact chroma_build_sorted docs metas dists hd hn
    |>.imp id (fun h => le_trans h hl)

/-- Witness for `similarity_search_contract` at the one-document store,
query `"x"`, `k = 1`, and the empty Chroma backend reply. -/
theorem similarity_search_contract_witness :
    (1 ≤ 1) ∧ (List.Pairwise (· ≤ ·) ([] : List ℝ)) ∧
      (∀ x ∈ ([] : List ℝ), (0 : ℝ) ≤ x) ∧ (([] : List ℝ).length ≤ 1) ∧
      (((similarity_search faissStoreOne "x".toList 1).length ≤ 1 ∧
          scoresDesc (similarity_search faissStoreOne "x".toList 1) ∧
          (faissStoreOne.docs = [] → similarity_search faissStoreOne "x".toList 1 = [])) ∧
        (scoresDesc (chroma_build [] [] []) ∧ (chroma_build [] [] []).length ≤ 1)) :=
  ⟨le_refl 1, List.Pairwise.nil, fun x hx => absurd hx (List.not_mem_nil x), by simp,
    similarity_search_contract faissStoreOne "x".toList 1 [] [] []
      (le_refl 1) List.Pairwise.nil (fun x hx => absurd hx (List.not_mem_nil x)) (by simp)⟩

/-- C5 (amended): `similarity_search` performs no validation of the query
(or of `k`, which it passes straight to the backend library): an empty
query string is embedded — to the zero vector, since it has no tokens — and
the search proceeds, returning a non-empty result list whose scores are all
0 whenever the index is non-empty and `k ≥ 1`, instead of propagating an
error. -/
theorem similarity_search_empty_query (s : FaissStore) (k : Nat)
    (hd : s.docs ≠ []) (hw : s.docs.length = s.vecs.length) (hk : 1 ≤ k) :
    similarity_search s [] k ≠ [] ∧
      ∀ r ∈ similarity_search s [] k, r.score = 0 := by
  have hde : s.docs.isEmpty = false := by
    rcases hx : s.docs with _ | _
    · exact absurd hx hd
    · rfl
  have hq : (embed_texts s.dim [([] : Str)]).headD [] = List.replicate s.dim 0 := by
    rw [embed_texts_eq_map, List.map_cons, List.map_nil, embedOne_nil, List.headD_cons]
  have hres : similarity_search s [] k =
      ((List.insertionSort rDesc
          ((List.range s.vecs.length).map
            (fun i => (i, dot (List.replicate s.dim 0) (s.vecs.getD i []))))).take k).filterMap
        (fun p => (s.docs.get? p.1).map (fun d => ⟨d.1, p.2, d.2⟩)) := by
    unfold similarity_search
    simp only [hde, Bool.false_eq_true, if_false, hq]
  have hscored : ∀ p ∈ (List.range s.vecs.length).map
      (fun i => (i, dot (List.replicate s.dim 0) (s.vecs.getD i []))),
      p.2 = (0 : ℝ) ∧ p.1 < s.vecs.length := by
    intro p hp
    obtain ⟨i, hi, rfl⟩ := List.mem_map.mp hp
    exact ⟨dot_replicate_zero _ _, List.mem_range.mp hi⟩
  have htop : ∀ p ∈ (List.insertionSort rDesc
      ((List.range s.vecs.length).map
        (fun i => (i, dot (List.replicate s.dim 0) (s.vecs.getD i []))))).take k,
      p.2 = (0 : ℝ) ∧ p.1 < s.vecs.length := by
    intro p hp
    exact hscored p (((List.perm_insertionSort rDesc _).mem_iff).mp
      (List.take_subset k _ hp))
  have hsome : ∀ p ∈ (List.insertionSort rDesc
      ((List.range s.vecs.length).map
        (fun i => (i, dot (List.replicate s.dim 0) (s.vecs.getD i []))))).take k,
      ((s.docs.get? p.1).map (fun d => (⟨d.1, p.2, d.2⟩ : RetrievedChunk))).isSome := by
    intro p hp
    have hlt : p.1 < s.docs.length := by
      rw [hw]
      exact (htop p hp).2
    cases hg : s.docs.get? p.1 with
    | none => rw [List.get?_eq_none] at hg; omega
    | some d => simp
  constructor
  · rw [hres]
    intro hemp
    have hlen := length_filterMap_of_some _ _ hsome
    rw [hemp] at hlen
    have hlr : (List.insertionSort rDesc
        ((List.range s.vecs.length).map
          (fun i => (i, dot (List.replicate s.dim 0) (s.vecs.getD i []))))).length
        = s.vecs.length := by
      rw [List.length_insertionSort, List.length_map, List.length_range]
    have hpos : 0 < s.vecs.length := by
      rw [← hw]
      rcases hx : s.docs with _ | _
      · exact absurd hx hd
      · simp
    rw [List.length_take, hlr] at hlen
    simp at hlen
    omega
  · rw [hres]
    intro r hr
    obtain ⟨p, hp, hfp⟩ := List.mem_filterMap.mp hr
    cases hg : s.docs.get? p.1 with
    | none => rw [hg] at hfp; simp at hfp
    | some d =>
      rw [hg] at hfp
      simp at hfp
      rw [← hfp]
      exact (htop p hp).1

/-- Witness for `similarity_search_empty_query` at the one-document store
with `k = 1`. -/
theorem similarity_search_empty_query_witness :
    (faissStoreOne.docs ≠ []) ∧ (faissStoreOne.docs.length = faissStoreOne.vecs.length) ∧
      (1 ≤ 1) ∧
      (similarity_search faissStoreOne [] 1 ≠ [] ∧
        ∀ r ∈ similarity_search faissStoreOne [] 1, r.score = 0) :=
  ⟨by simp [faissStoreOne], by simp [faissStoreOne], le_refl 1,
    similarity_search_empty_query faissStoreOne 1 (by simp [faissStoreOne])
      (by simp [faissStoreOne]) (le_refl 1)⟩

/-- C5 (counterexample to the claim as stated): the empty query string is
not rejected — on a one-document store with `k = 1` the search returns the
stored document (with score 0), i.e. a result, not a propagated error.
(No `raise` exists on this code path; `k < 1` validation is likewise absent
from the repository code, being delegated to the backend library.) -/
theorem similarity_search_empty_query_returns :
    similarity_search faissStoreOne [] 1 =
      [⟨"hello".toList, 0, mkMeta "kb.txt".toList 0⟩] := by
  have hq : (embed_texts 3 [([] : Str)]).head? = some (List.replicate 3 (0 : ℝ)) := by
    rw [embed_texts_eq_map, List.map_cons, List.map_nil, embedOne_nil]
    rfl
  unfold similarity_search
  simp only [faissStoreOne]
  norm_num [List.range_succ, List.insertionSort, List.orderedInsert, hq,
    dot_replicate_zero]
  simp [List.filterMap_cons]

/-! ### Ingestion lemmas (C7, C8, C10) -/

theorem foldl_append_eq {α β : Type} (f : α → List β) :
    ∀ (l : List α) (init : List β),
      l.foldl (fun acc x => acc ++ f x) init = init ++ (l.map f).flatten := by
  intro l
  induction l with
  | nil => intro init; simp
  | cons a t ih =>
    intro init
    simp only [List.foldl_cons, List.map_cons, List.flatten_cons, ih (init ++ f a),
      List.append_assoc]

/-- C8: `ingest_knowledge` accumulates, over the documents in order, the
chunks of each document tagged `{source, chunk_index}`; it hands the whole
accumulation to the store's add operation in a single call (one appended
batch — none when there are no chunks, since `add_texts` returns
immediately on empty input), and returns the total number of chunks. -/
theorem ingest_knowledge_single_add (dim : Nat) (store : ChromaStore)
    (texts sources : List Str) (size ov : Nat)
    (hlen : sources.length = texts.length) (hov : ov < size) :
    ingest_knowledge dim store texts (some sources) size ov =
      Except.ok
        (⟨store.batches ++
            (if (taggedChunks texts sources size ov).isEmpty then []
             else [ingestBatch dim (taggedChunks texts sources size ov)])⟩,
          (taggedChunks texts sources size ov).length) := by
  unfold ingest_knowledge
  simp only [Option.getD_some]
  rw [if_neg (by omega)]
  have hfold : (texts.zip sources).foldl
      (fun acc ts =>
        acc ++ (List.enum (chunk_text ts.1 size ov)).map
          (fun ic => (ic.2, mkMeta ts.2 ic.1))) [] =
      taggedChunks texts sources size ov := by
    rw [taggedChunks, foldl_append_eq, List.nil_append]
  rw [hfold]
  by_cases hemp : (taggedChunks texts sources size ov).isEmpty
  · have he : taggedChunks texts sources size ov = [] := by
      rwa [List.isEmpty_iff] at hemp
    rw [he]
    unfold chroma_add_texts
    simp
  · unfold chroma_add_texts
    have hm : ((taggedChunks texts sources size ov).map Prod.fst).isEmpty = false := by
      rcases hx : taggedChunks texts sources size ov with _ | _
      · rw [hx] at hemp; simp at hemp
      · simp [hx]
    rw [hm]
    simp only [Bool.false_eq_true, if_false, Option.getD_some]
    rw [if_neg (by simp [List.length_map]), if_neg hemp]
    rfl

/-- Witness for `ingest_knowledge_single_add` at one document. -/
theorem ingest_knowledge_single_add_witness :
    ((["src.txt".toList] : List Str).length = (["hi there".toList] : List Str).length) ∧
      (1 < 5) ∧
      ingest_knowledge 3 ⟨[]⟩ ["hi there".toList] (some ["src.txt".toList]) 5 1 =
        Except.ok
          (⟨([] : List (List ChromaEntry)) ++
              (if (taggedChunks ["hi there".toList] ["src.txt".toList] 5 1).isEmpty then []
               else [ingestBatch 3 (taggedChunks ["hi there".toList] ["src.txt".toList] 5 1)])⟩,
            (taggedChunks ["hi there".toList] ["src.txt".toList] 5 1).length) :=
  ⟨rfl, by decide,
    ingest_knowledge_single_add 3 ⟨[]⟩ ["hi there".toList] ["src.txt".toList] 5 1
      rfl (by decide)⟩

/-- C10: when an explicit `sources` list has a different length than
`knowledge_texts`, `ingest_knowledge` raises `ValueError` before any
chunking and before any call to the store's add operation — in this
state-passing embedding the error return carries no new store state, i.e.
the vector store is unchanged. -/
theorem ingest_knowledge_length_mismatch (dim : Nat) (store : ChromaStore)
    (texts sources : List Str) (size ov : Nat)
    (h : sources.length ≠ texts.length) :
    ingest_knowledge dim store texts (some sources) size ov =
      Except.error "sources length must match knowledge_texts length".toList := by
  unfold ingest_knowledge
  simp only [Option.getD_some]
  rw [if_pos h]

/-- Witness for `ingest_knowledge_length_mismatch`: one source for zero
texts. -/
theorem ingest_knowledge_length_mismatch_witness :
    ((["src.txt".toList] : List Str).length ≠ (([] : List Str)).length) ∧
      ingest_knowledge 3 ⟨[]⟩ [] (some ["src.txt".toList]) 1200 200 =
        Except.error "sources length must match knowledge_texts length".toList :=
  ⟨by decide,
    ingest_knowledge_length_mismatch 3 ⟨[]⟩ [] ["src.txt".toList] 1200 200 (by decide)⟩

/-- C7: running `ensure_ingested` against a collection that already holds at
least one chunk is a no-op: the count guard returns before any chunking or
adding, the store (hence its chunk count) is unchanged, and therefore a
second call returns the same unchanged store and count as the first. -/
theorem ensure_ingested_skips (dim : Nat) (kd : Option (List (Str × Str)))
    (store : ChromaStore) (h : 1 ≤ chromaCount store) :
    ensure_ingested dim kd store = Except.ok store := by
  unfold ensure_ingested
  rw [if_pos (show 0 < chromaCount store from h)]

/-- Witness for `ensure_ingested_skips` at a one-chunk collection. -/
theorem ensure_ingested_skips_witness :
    (1 ≤ chromaCount chromaStoreOne) ∧
      ensure_ingested 384 none chromaStoreOne = Except.ok chromaStoreOne :=
  ⟨by simp [chromaCount, chromaEntries, chromaStoreOne],
    ensure_ingested_skips 384 none chromaStoreOne
      (by simp [chromaCount, chromaEntries, chromaStoreOne])⟩

/-! ### Context formatter theorems (C1) -/

/-- C1 (counterexample to the claim as stated): the canonical context
formatter of the retrieval module returns the *empty* string for an empty
chunk list — not a non-empty sentinel. -/
theorem format_retrieved_context_empty :
    format_retrieved_context [] = [] := rfl

/-- C1 (amended): only the backend's fallback formatter
`_format_retrieved_context` (src/backend/rag.py) returns the fixed
non-empty sentinel `"No relevant knowledge retrieved."` on an empty chunk
list; the canonical formatter `format_retrieved_context`
(src/rag_module/query.py), which `retrieve_context_from_model_output`
prefers, returns the empty string — callers using it cannot distinguish
"no chunks" from an empty formatting result. -/
theorem backend_format_sentinel :
    backend_format_retrieved_context [] = "No relevant knowledge retrieved.".toList ∧
      "No relevant knowledge retrieved.".toList ≠ [] ∧
      format_retrieved_context [] = [] :=
  ⟨rfl, by decide, rfl⟩
